import Mathlib

/-!
Shallow embedding of the QNA quiz core (QuizEngine and MarkdownParser from
the JavaScript sources) together with theorems settling the specification
claims. JavaScript strings are modelled as Lean String or List Char;
JavaScript objects used as ordered letter-to-text maps are modelled as
insertion-ordered association lists. JavaScript numbers holding counts are
modelled as Nat or Int. Wall-clock timestamps are modelled as explicit
parameters threaded into the functions that read the clock.
-/

set_option maxRecDepth 4000

/-! ## Basic character and string utilities -/

/-- Uppercase ASCII letter test, modelling the character class A-Z used by
the regular expressions in the source. -/
def isUpperAlpha (c : Char) : Bool := 'A' ≤ c && c ≤ 'Z'

/-- ASCII digit test, modelling the regex digit class. -/
def isDigitChar (c : Char) : Bool := '0' ≤ c && c ≤ '9'

/-- Whitespace test modelling the JavaScript whitespace class for the ASCII
characters that can occur in the documents handled here. -/
def isWsChar (c : Char) : Bool := c = ' ' || c = '\t' || c = '\n' || c = '\r'

/-- Trim whitespace from both ends of a character list, modelling the
JavaScript String.trim method. -/
def jsTrimList (cs : List Char) : List Char :=
  ((cs.dropWhile isWsChar).reverse.dropWhile isWsChar).reverse

/-- Trim on strings, modelling String.trim. -/
def jsTrim (s : String) : String := String.mk (jsTrimList s.data)

/-- Test whether the literal `lit` is an initial segment of `cs`. -/
def startsWithLit : List Char → List Char → Bool
  | [], _ => true
  | _ :: _, [] => false
  | p :: ps, c :: cs => p = c && startsWithLit ps cs

/-- Test whether `lit` occurs as a contiguous segment anywhere in the list. -/
def containsLit (lit : List Char) : List Char → Bool
  | [] => startsWithLit lit []
  | cs@(_ :: rest) => startsWithLit lit cs || containsLit lit rest

/-- Sort a character list ascending, modelling the default JavaScript
Array.prototype.sort comparator on single-letter strings. -/
def sortChars (l : List Char) : List Char := List.insertionSort (· ≤ ·) l

/-! ## Data model -/

/-- One accepted question record, as built by MarkdownParser.extractQuestion.
The `options` field is the insertion-ordered letter-to-text object; the
`metaTimestamp` field models the wall-clock timestamp stored in
extractionMetadata (all other metadata entries are functions of the block
and are omitted). -/
structure Question where
  id : String
  title : String
  content : String
  options : List (Char × String)
  correctAnswers : List Char
  rawBlock : String
  metaTimestamp : String
deriving DecidableEq, Repr

/-- Lookup in an options object, modelling property access options[letter]. -/
def lookupOpt (m : List (Char × String)) (k : Char) : Option String :=
  match m.find? (fun p => p.1 = k) with
  | some p => some p.2
  | none => none

/-- Truthiness of options[letter] in JavaScript: the key is present and its
text is not the empty string. -/
def optionTruthy (m : List (Char × String)) (c : Char) : Bool :=
  match lookupOpt m c with
  | some t => t ≠ ""
  | none => false

/-- Session state of one quiz run (the mutable fields of a QuizEngine
instance). `startTime` and `endTime` hold abstract clock values. -/
structure QuizEngine where
  selectedQuestions : List Question
  currentIndex : Nat
  userAnswers : List (Option (List Char))
  startTime : Option Nat
  endTime : Option Nat
  isCompleted : Bool
deriving DecidableEq, Repr

/-! ## QuizEngine operations -/

/-- Error kinds thrown by the engine, keyed by the throw sites in the
source. The three format errors of validateAnswerFormat (empty answer, too
long, characters outside A-Z) are one kind, matching the MalformedAnswer
taxonomy entry; the UnknownOption kind covers validateAnswerForQuestion. -/
inductive SubmitError
  | notInitialized
  | invalidState
  | indexOutOfRange
  | malformedAnswer
  | unknownOption
deriving DecidableEq, Repr

inductive EngineInitError
  | emptyPool
  | noValidQuestions
deriving DecidableEq, Repr

/-- Result object returned by a successful submitAnswer (the timestamp
field of the source result object is omitted). -/
structure SubmitOutcome where
  questionIndex : Nat
  answer : List Char
  isCorrect : Bool
  questionId : String
deriving DecidableEq, Repr

def isOkE (r : Except SubmitError SubmitOutcome) : Bool :=
  match r with
  | .ok _ => true
  | .error _ => false

/-- QuizEngine.isAnswerCorrect on the question at hand. A multi-letter
answer is split, both letter arrays are sorted and compared index by index
(equivalent to list equality); a single letter is tested by membership in
correctAnswers (Array.prototype.includes). An empty answer never matches a
letter element, hence false. -/
def isAnswerCorrect (q : Question) (ans : List Char) : Bool :=
  if 1 < ans.length then
    decide (sortChars ans = sortChars q.correctAnswers)
  else
    match ans with
    | [c] => decide (c ∈ q.correctAnswers)
    | _ => false

/-- QuizEngine.isAnswerCorrect including its side effect: for a multi-letter
answer the source calls question.correctAnswers.sort(), which sorts the
stored array in place; the second component is the question as it is left
in the selected list after the call. -/
def isAnswerCorrectMut (q : Question) (ans : List Char) : Bool × Question :=
  if 1 < ans.length then
    (isAnswerCorrect q ans, { q with correctAnswers := sortChars q.correctAnswers })
  else
    (isAnswerCorrect q ans, q)

/-- QuizEngine.validateAnswerFormat as a pass/fail test: the answer is a
nonempty string of at most maxAnswerLength (10) characters, all in A-Z.
The source throws three distinct messages; all are the MalformedAnswer
kind here. -/
def validateAnswerFormat (ans : List Char) : Bool :=
  !ans.isEmpty && ans.length ≤ 10 && ans.all isUpperAlpha

/-- QuizEngine.validateAnswerForQuestion as a pass/fail test: every
submitted letter must be truthy in the options object of the question
(present with nonempty text). The source checks the letters one by one and
throws at the first failure; the error kind is the same for all. -/
def validateAnswerForQuestion (ans : List Char) (q : Question) : Bool :=
  ans.all (optionTruthy q.options)

/-- QuizEngine.submitAnswer. Checks run in source order: quiz state
(selected questions present, quiz not completed), index bound, then the
start timestamp is stamped if absent, then answer format, then options
membership; on success the answer is stored at currentIndex and
isAnswerCorrect is evaluated (with its in-place sort of correctAnswers).
The first component is the engine state after the call, also on the throw
paths, where the state mutations made before the throw persist. -/
def submitAnswer (e : QuizEngine) (ans : List Char) (now : Nat) :
    QuizEngine × Except SubmitError SubmitOutcome :=
  if e.selectedQuestions = [] then (e, .error .notInitialized)
  else if e.isCompleted then (e, .error .invalidState)
  else if h : e.selectedQuestions.length ≤ e.currentIndex then
    (e, .error .indexOutOfRange)
  else
    let st1 : Option Nat := if e.startTime = none then some now else e.startTime
    if validateAnswerFormat ans = false then
      ({ e with startTime := st1 }, .error .malformedAnswer)
    else
      let q := e.selectedQuestions.get ⟨e.currentIndex, Nat.lt_of_not_le h⟩
      if validateAnswerForQuestion ans q = false then
        ({ e with startTime := st1 }, .error .unknownOption)
      else
        ({ e with
            startTime := st1,
            userAnswers := e.userAnswers.set e.currentIndex (some ans),
            selectedQuestions :=
              e.selectedQuestions.set e.currentIndex (isAnswerCorrectMut q ans).2 },
         .ok { questionIndex := e.currentIndex, answer := ans,
               isCorrect := (isAnswerCorrectMut q ans).1, questionId := q.id })

/-- QuizEngine.nextQuestion: advance while more questions remain; at the
last question mark the quiz completed and stamp the end time. -/
def nextQuestion (e : QuizEngine) (now : Nat) : QuizEngine :=
  if e.currentIndex + 1 < e.selectedQuestions.length then
    { e with currentIndex := e.currentIndex + 1 }
  else if e.currentIndex + 1 = e.selectedQuestions.length then
    { e with isCompleted := true, endTime := some now }
  else e

/-- Loop body of QuizEngine.calculateScore: count indices whose stored
answer is truthy (non-null, nonempty) and correct for the question at the
same position. The in-place sort performed by isAnswerCorrect does not
change any of the boolean results, so the counting is modelled purely. -/
def countCorrect : List Question → List (Option (List Char)) → Nat
  | q :: qs, oa :: as =>
      (match oa with
       | some a => if !a.isEmpty && isAnswerCorrect q a then 1 else 0
       | none => 0) + countCorrect qs as
  | _ :: qs, [] => countCorrect qs []
  | [], _ => 0

/-- Math.round(x) for the nonnegative rational c/t*100, as used by
calculateScore: floor of the value plus one half. -/
def jsRoundPct (c t : Nat) : Nat :=
  if t = 0 then 0 else (200 * c + t) / (2 * t)

structure ScoreData where
  score : Nat
  correctCount : Nat
  totalQuestions : Nat
  percentage : Nat
deriving DecidableEq, Repr

/-- QuizEngine.calculateScore. -/
def calculateScore (e : QuizEngine) : ScoreData :=
  let cc := countCorrect e.selectedQuestions e.userAnswers
  let total := e.selectedQuestions.length
  let sc := jsRoundPct cc total
  { score := sc, correctCount := cc, totalQuestions := total, percentage := sc }

/-- QuizEngine.validateQuestionStructure as a pass/fail test on the typed
record: nonempty id, nonempty content, at least 2 options, nonempty
correctAnswers (the typeof checks of the source are discharged by the
types). -/
def validateQuestionStructure (q : Question) : Bool :=
  q.id ≠ "" && q.content ≠ "" && decide (2 ≤ q.options.length) && q.correctAnswers ≠ []

/-- Selection loop of QuizEngine.selectRandomQuestions: repeatedly pick a
random index into the remaining questions and splice it out, until the
requested count is reached or no questions remain. The randomness source is
the injected `rand`; `rand i % length` models Math.floor(Math.random() *
length), which always lies in range. -/
def selectLoop (rand : Nat → Nat) : Nat → Nat → List Question → List Question
  | 0, _, _ => []
  | k + 1, i, avail =>
      if avail.isEmpty then []
      else
        match avail.get? (rand i % avail.length) with
        | some q => q :: selectLoop rand k (i + 1) (avail.eraseIdx (rand i % avail.length))
        | none => []

def selectRandomQuestions (rand : Nat → Nat) (n : Nat) (qs : List Question) : List Question :=
  selectLoop rand n 0 qs

/-- QuizEngine constructor. The requested count is first clamped from above
by the pool length (Math.min); validateInitialQuestions then rejects an
empty pool, filters out structurally invalid records and rejects the case
where none survive; finally the random subset is drawn and the per-index
answer slots are initialised to null. -/
def mkEngine (qs : List Question) (requested : Int) (rand : Nat → Nat) :
    Except EngineInitError QuizEngine :=
  let n : Int := min requested (qs.length : Int)
  if qs = [] then .error .emptyPool
  else
    let valid := qs.filter validateQuestionStructure
    if valid = [] then .error .noValidQuestions
    else
      let sel := selectRandomQuestions rand n.toNat valid
      .ok { selectedQuestions := sel, currentIndex := 0,
            userAnswers := List.replicate sel.length none,
            startTime := none, endTime := none, isCompleted := false }

/-! ## MarkdownParser: block detection -/

/-- Literal heading marker of questionBlockRegex and questionNumberRegex. -/
def headingLit : List Char := "## Pregunta ".toList

/-- Attempt to match the opening of questionBlockRegex at the head of the
list: the literal heading, one or more digits, then two newline characters.
Returns the matched characters and the remainder. -/
def matchHeadingAt (cs : List Char) : Option (List Char × List Char) :=
  if startsWithLit headingLit cs then
    let afterLit := cs.drop headingLit.length
    let digits := afterLit.takeWhile isDigitChar
    let afterDigits := afterLit.drop digits.length
    if !digits.isEmpty && startsWithLit ['\n', '\n'] afterDigits then
      some (headingLit ++ digits ++ ['\n', '\n'], afterDigits.drop 2)
    else none
  else none

/-- Leftmost heading match at or after the current position, as the global
regex search does. -/
def findHeadingFrom : List Char → Option (List Char × List Char)
  | [] => none
  | cs@(_ :: rest) =>
      match matchHeadingAt cs with
      | some r => some r
      | none => findHeadingFrom rest

/-- Lookahead alternatives of questionBlockRegex: the lazily matched body
ends at the earliest position where one of these begins (or at the end of
the input). -/
def isBlockBoundary (cs : List Char) : Bool :=
  startsWithLit "## Pregunta".toList cs ||
  startsWithLit "\n---".toList cs ||
  startsWithLit "\n#".toList cs

/-- Take the lazily matched block body: the shortest span after which a
boundary (or the end of input) follows. -/
def takeBody : List Char → List Char × List Char
  | [] => ([], [])
  | cs@(c :: rest) =>
      if isBlockBoundary cs then ([], cs)
      else
        let (b, r) := takeBody rest
        (c :: b, r)

/-- Iterated exec of questionBlockRegex: each match consists of the heading
plus the lazily matched body; the search resumes at the end of the match.
The fuel only bounds the recursion; every iteration consumes at least the
heading, so input length plus one never runs out. -/
def splitBlocksAux : Nat → List Char → List (List Char)
  | 0, _ => []
  | fuel + 1, cs =>
      match findHeadingFrom cs with
      | none => []
      | some (heading, afterH) =>
          let (body, rest) := takeBody afterH
          (heading ++ body) :: splitBlocksAux fuel rest

def splitQuestionBlocks (content : String) : List (List Char) :=
  splitBlocksAux (content.data.length + 1) content.data

/-- First match of questionNumberRegex in a block: the digits following the
first occurrence of the heading literal. -/
def matchNumberAt (cs : List Char) : Option (List Char) :=
  if startsWithLit headingLit cs then
    let digits := (cs.drop headingLit.length).takeWhile isDigitChar
    if digits.isEmpty then none else some digits
  else none

def findNumberFrom : List Char → Option (List Char)
  | [] => none
  | cs@(_ :: rest) =>
      match matchNumberAt cs with
      | some r => some r
      | none => findNumberFrom rest

/-! ## MarkdownParser: option extraction -/

/-- Split a character list on newline characters, modelling
String.prototype.split with separator newline. -/
def splitLinesAux : List Char → List (List Char)
  | [] => [[]]
  | '\n' :: rest => [] :: splitLinesAux rest
  | c :: rest =>
      match splitLinesAux rest with
      | l :: ls => (c :: l) :: ls
      | [] => [[c]]

/-- Test of the body boundary regex in extractQuestionContent: optional
double-star emphasis, one uppercase letter, optional double-star emphasis,
then a literal dot. When the double-star is present the un-stripped
alternative of the optional group cannot match, so stripping is
deterministic. -/
def isOptionStart (line : List Char) : Bool :=
  let l1 := if startsWithLit ['*', '*'] line then line.drop 2 else line
  match l1 with
  | c :: rest =>
      isUpperAlpha c &&
        (let r2 := if startsWithLit ['*', '*'] rest then rest.drop 2 else rest
         match r2 with
         | '.' :: _ => true
         | _ => false)
  | [] => false

def asButtonLit : List Char := "<as-button".toList

/-- Body accumulation loop of extractQuestionContent: keep lines, each
followed by a newline, until the first option-shaped line or the first
line containing the control marker. -/
def takeBodyLines : List (List Char) → List Char
  | [] => []
  | l :: ls =>
      if isOptionStart l || containsLit asButtonLit l then []
      else l ++ '\n' :: takeBodyLines ls

/-- MarkdownParser.extractQuestionContent: walk the block lines starting at
index 2 (after the heading and the blank line), stop at the first
option-shaped line or at the first line containing the control marker,
join the kept lines with newlines and trim. -/
def extractQuestionContent (block : List Char) : List Char :=
  jsTrimList (takeBodyLines ((splitLinesAux block).drop 2))

/-- Close of the minimal bold match in cleanOptionText: scan for the next
double star; the dot of the regex does not match a newline, so a newline
aborts the match. -/
def findBoldClose : List Char → Option (List Char × List Char)
  | '*' :: '*' :: rest => some ([], rest)
  | '\n' :: _ => none
  | c :: rest =>
      match findBoldClose rest with
      | some (i, a) => some (c :: i, a)
      | none => none
  | [] => none

/-- Global replace of minimally matched double-star emphasis by its
contents. A failed match attempt advances the scan by one character, as
the regex engine does. Fuel bounds the recursion; each step consumes at
least one character. -/
def replaceBoldAux : Nat → List Char → List Char
  | 0, cs => cs
  | fuel + 1, '*' :: '*' :: rest =>
      (match findBoldClose rest with
       | some (inner, after) => inner ++ replaceBoldAux fuel after
       | none => '*' :: replaceBoldAux fuel ('*' :: rest))
  | fuel + 1, c :: rest => c :: replaceBoldAux fuel rest
  | _ + 1, [] => []

def replaceBold (cs : List Char) : List Char := replaceBoldAux (cs.length + 1) cs

/-- Close of the minimal italic match (single star). -/
def findItalicClose : List Char → Option (List Char × List Char)
  | '*' :: rest => some ([], rest)
  | '\n' :: _ => none
  | c :: rest =>
      match findItalicClose rest with
      | some (i, a) => some (c :: i, a)
      | none => none
  | [] => none

/-- Global replace of minimally matched single-star emphasis by its
contents. -/
def replaceItalicAux : Nat → List Char → List Char
  | 0, cs => cs
  | fuel + 1, '*' :: rest =>
      (match findItalicClose rest with
       | some (inner, after) => inner ++ replaceItalicAux fuel after
       | none => '*' :: replaceItalicAux fuel rest)
  | fuel + 1, c :: rest => c :: replaceItalicAux fuel rest
  | _ + 1, [] => []

def replaceItalic (cs : List Char) : List Char := replaceItalicAux (cs.length + 1) cs

/-- MarkdownParser.cleanOptionText: strip bold then italic emphasis, then
trim. -/
def cleanOptionText (cs : List Char) : List Char :=
  jsTrimList (replaceItalic (replaceBold cs))

/-! ## MarkdownParser: option line matching -/

/-- Backtracking case of optionRegex when the greedy whitespace run reaches
the end of the input: the whitespace part gives back its last character
that is not a newline (the captured text is then that single whitespace
character, which trims to the empty string); the newline characters after
it stay unconsumed. Returns the captured text and the rest, or none when no
valid split exists. `w` is the maximal whitespace run, known nonempty. -/
def backtrackWs (w : List Char) : Option (List Char × List Char) :=
  let k := (w.reverse.takeWhile (· = '\n')).length
  if k + 1 < w.length then
    some ((w.drop (w.length - k - 1)).take 1, w.drop (w.length - k))
  else none

/-- Attempt to match optionRegex at a line start: optional double-star
emphasis, one uppercase letter captured, optional double-star emphasis,
any number of dots, at least one whitespace character, then the nonempty
rest of a line captured. The whitespace class includes the newline, so the
match can run into a following line; the captured text always ends at a
line end. Returns the letter, the raw captured text and the remainder of
the input after the match. -/
def tryOptionMatch (cs : List Char) : Option ((Char × List Char) × List Char) :=
  let s1 := if startsWithLit ['*', '*'] cs then cs.drop 2 else cs
  match s1 with
  | c :: s2 =>
      if isUpperAlpha c then
        let s3 := if startsWithLit ['*', '*'] s2 then s2.drop 2 else s2
        let s4 := s3.dropWhile (· = '.')
        let w := s4.takeWhile isWsChar
        let s5 := s4.drop w.length
        if w.isEmpty then none
        else
          match s5 with
          | _ :: _ =>
              let txt := s5.takeWhile (· ≠ '\n')
              some ((c, txt), s5.dropWhile (· ≠ '\n'))
          | [] =>
              match backtrackWs w with
              | some (txt, rest) => some ((c, txt), rest)
              | none => none
      else none
  | [] => none

/-- Drop the current line including its newline. -/
def dropLine (cs : List Char) : List Char := (cs.dropWhile (· ≠ '\n')).drop 1

/-- Iterated global exec of optionRegex over the block: matches are
anchored at line starts; after a match the scan resumes at the end of the
match (which is a line end, so the next attempt fails until the newline is
consumed). Fuel bounds the recursion; every step consumes at least one
character. -/
def scanOptionsAux : Nat → List Char → List (Char × List Char)
  | 0, _ => []
  | _ + 1, [] => []
  | fuel + 1, cs =>
      match tryOptionMatch cs with
      | some (kv, rest) => kv :: scanOptionsAux fuel rest
      | none => scanOptionsAux fuel (dropLine cs)

/-- The sequence of raw optionRegex matches of a block, each with the
trim and cleanOptionText post-processing applied to the captured text, in
match order. -/
def optionMatches (block : List Char) : List (Char × String) :=
  (scanOptionsAux (block.length + 1) block).map
    (fun p => (p.1, String.mk (cleanOptionText (jsTrimList p.2))))

/-- JavaScript object property assignment on the insertion-ordered options
object: an existing key keeps its position and receives the new value, a
new key is appended. -/
def jsObjAssign (m : List (Char × String)) (k : Char) (v : String) : List (Char × String) :=
  if m.any (fun p => p.1 = k) then
    m.map (fun p => if p.1 = k then (k, v) else p)
  else m ++ [(k, v)]

/-- MarkdownParser.extractAnswers: iterate the option matches and assign
each into the options object. -/
def extractAnswers (block : List Char) : List (Char × String) :=
  (optionMatches block).foldl (fun m p => jsObjAssign m p.1 p.2) []

/-! ## MarkdownParser: correct answer extraction -/

/-- Search, inside one as-button tag opening (the region before the next
greater-than sign), for the given attribute literal; capture the nonempty
value up to the closing quote and require a closing greater-than sign
later, mirroring correctAnswerRegex and inquireAnswerRegex on well-formed
tags. -/
def scanAttrIn (attrLit : List Char) : List Char → Option (List Char)
  | [] => none
  | '>' :: _ => none
  | cs@(_ :: rest) =>
      if startsWithLit attrLit cs then
        let afterAttr := cs.drop attrLit.length
        let v := afterAttr.takeWhile (· ≠ '"')
        match afterAttr.drop v.length with
        | '"' :: tail => if !v.isEmpty && tail.any (· = '>') then some v else none
        | _ => none
      else scanAttrIn attrLit rest

/-- Leftmost as-button occurrence whose tag carries the attribute; on
failure the search continues at the next occurrence. -/
def findButtonAttr (attrLit : List Char) : List Char → Option (List Char)
  | [] => none
  | cs@(_ :: rest) =>
      if startsWithLit asButtonLit cs then
        match scanAttrIn attrLit (cs.drop asButtonLit.length) with
        | some v => some v
        | none => findButtonAttr attrLit rest
      else findButtonAttr attrLit rest

/-- Accumulate the inquire letters: each uppercase character not already
collected is appended. -/
def addInquire (acc : List Char) : List Char → List Char
  | [] => acc
  | c :: cs =>
      if isUpperAlpha c && !acc.contains c then addInquire (acc ++ [c]) cs
      else addInquire acc cs

/-- MarkdownParser.extractCorrectAnswer: every uppercase character of the
message attribute value is pushed (duplicates included), then the inquire
attribute contributes its uppercase characters that are not yet present. -/
def extractCorrectAnswer (block : List Char) : List Char :=
  let fromMsg :=
    match findButtonAttr "message=\"".toList block with
    | some v => v.filter isUpperAlpha
    | none => []
  match findButtonAttr "inquire=\"".toList block with
  | some v => addInquire fromMsg v
  | none => fromMsg

/-! ## MarkdownParser: question extraction and validation -/

/-- Zero-pad the digit run to three characters, modelling padStart(3, zero). -/
def padId (ds : List Char) : String :=
  String.mk (List.replicate (3 - ds.length) '0' ++ ds)

/-- MarkdownParser.extractQuestion on one block. The throw sites (no
number, falsy content, no options, no correct answers) become none. `now`
is the wall-clock string stored in the extraction metadata. -/
def extractQuestion (block : List Char) (now : String) : Option Question :=
  match findNumberFrom block with
  | none => none
  | some ds =>
      let content := extractQuestionContent block
      if content.isEmpty then none
      else
        let opts := extractAnswers block
        if opts.isEmpty then none
        else
          let correct := extractCorrectAnswer block
          if correct.isEmpty then none
          else
            some { id := padId ds,
                   title := "Pregunta " ++ String.mk ds,
                   content := String.mk content,
                   options := opts,
                   correctAnswers := correct,
                   rawBlock := String.mk block,
                   metaTimestamp := now }

/-- Duplicate test on the correct answer letters, modelling the comparison
of the array length against the size of a Set built from it. -/
def hasDupChar : List Char → Bool
  | [] => false
  | c :: cs => cs.contains c || hasDupChar cs

/-- MarkdownParser.validateQuestion: conjunction of validateBasicStructure,
validateQuestionContent (length within 10..2000, trim nonempty),
validateQuestionOptions (2..8 options, required letters A and B truthy,
every option an uppercase letter with nonempty text of at most 500
characters), validateCorrectAnswers (nonempty, uppercase, no duplicates)
and validateAnswerConsistency (every correct letter truthy among the
options). The typeof checks of validateBasicStructure are discharged by
the types; its falsy checks on id, title and content remain. -/
def validateQuestion (q : Question) : Bool :=
  q.id ≠ "" && q.title ≠ "" && q.content ≠ "" &&
  decide (10 ≤ q.content.length) && decide (q.content.length ≤ 2000) &&
  jsTrim q.content ≠ "" &&
  decide (2 ≤ q.options.length) && decide (q.options.length ≤ 8) &&
  optionTruthy q.options 'A' && optionTruthy q.options 'B' &&
  q.options.all (fun p =>
    isUpperAlpha p.1 && p.2 ≠ "" && jsTrim p.2 ≠ "" && decide (p.2.length ≤ 500)) &&
  !q.correctAnswers.isEmpty && q.correctAnswers.all isUpperAlpha &&
  !hasDupChar q.correctAnswers &&
  q.correctAnswers.all (optionTruthy q.options)

/-! ## MarkdownParser: whole-document parsing -/

/-- Counts accumulated by parseQuestions and reported by getParsingStats:
processedQuestions and skippedQuestions. -/
structure ParseReport where
  processed : Nat
  skipped : Nat
deriving DecidableEq, Repr

/-- The two throw sites of parseQuestions: the whole-document content check
and the final empty-result check. -/
inductive ParseError
  | invalidContent
  | noValidQuestions
deriving DecidableEq, Repr

/-- MarkdownParser.validateMarkdownContent: the content is a nonempty
string whose trim is nonempty and questionBlockRegex matches somewhere.
Because the lazy body can be empty and end-of-input is a valid lookahead,
the regex test is equivalent to the presence of one heading match. -/
def validateMarkdownContent (content : String) : Bool :=
  jsTrim content ≠ "" && (findHeadingFrom content.data).isSome

/-- Per-block step of the parseQuestions loop: an extracted and validated
question is accepted, anything else (extraction throw or failed
validation) is counted as skipped and processing continues. -/
def processBlock (now : String) (acc : List Question × ParseReport) (block : List Char) :
    List Question × ParseReport :=
  match extractQuestion block now with
  | some q =>
      if validateQuestion q then
        (acc.1 ++ [q], { acc.2 with processed := acc.2.processed + 1 })
      else
        (acc.1, { acc.2 with skipped := acc.2.skipped + 1 })
  | none => (acc.1, { acc.2 with skipped := acc.2.skipped + 1 })

/-- MarkdownParser.parseQuestions. The first component is the report state
of the parser instance after the call (also on the throw paths); the
second is the returned question list or the thrown error. -/
def parseQuestionsFull (content : String) (now : String) :
    ParseReport × Except ParseError (List Question) :=
  if validateMarkdownContent content = false then
    (⟨0, 0⟩, .error .invalidContent)
  else
    let r := (splitQuestionBlocks content).foldl (processBlock now) ([], ⟨0, 0⟩)
    if r.1.isEmpty then (r.2, .error .noValidQuestions)
    else (r.2, .ok r.1)

/-! ## Auxiliary definitions used by the theorems -/

instance instDecEqExceptLocal {ε α : Type} [DecidableEq ε] [DecidableEq α] :
    DecidableEq (Except ε α) := fun a b =>
  match a, b with
  | .ok x, .ok y =>
      if h : x = y then isTrue (by rw [h])
      else isFalse (fun hc => h (by injection hc))
  | .error x, .error y =>
      if h : x = y then isTrue (by rw [h])
      else isFalse (fun hc => h (by injection hc))
  | .ok _, .error _ => isFalse (fun hc => by injection hc)
  | .error _, .ok _ => isFalse (fun hc => by injection hc)

/-- Acceptance test of one block in the parseQuestions loop: extraction
succeeds and validation passes. -/
def blockAccepted (now : String) (block : List Char) : Bool :=
  match extractQuestion block now with
  | some q => validateQuestion q
  | none => false

/-- The accepted questions of a block list, in document order. -/
def acceptedOf (now : String) (blocks : List (List Char)) : List Question :=
  blocks.filterMap (fun b =>
    match extractQuestion b now with
    | some q => if validateQuestion q then some q else none
    | none => none)

/-- Keep the first occurrence of every character, in order of first
appearance, skipping characters already seen. -/
def firstDedupAux (seen : List Char) : List Char → List Char
  | [] => []
  | k :: ks =>
      if k ∈ seen then firstDedupAux seen ks
      else k :: firstDedupAux (k :: seen) ks

def firstDedup (l : List Char) : List Char := firstDedupAux [] l

/-- The fields of a question record other than the extraction timestamp. -/
def coreOf (q : Question) : String × String × String × List (Char × String) × List Char × String :=
  (q.id, q.title, q.content, q.options, q.correctAnswers, q.rawBlock)

/-- The returned pool of a parse result, none on the throw paths. -/
def okQuestions : Except ParseError (List Question) → Option (List Question)
  | .ok qs => some qs
  | .error _ => none

/-- Concrete question records and engines used in the witnesses and
counterexamples. -/
def qAB : Question :=
  { id := "001", title := "Pregunta 1", content := "contenido xyz",
    options := [('A', "aa"), ('B', "bb")], correctAnswers := ['A'],
    rawBlock := "", metaTimestamp := "" }

def qABCD : Question :=
  { id := "002", title := "Pregunta 2", content := "contenido abcd",
    options := [('A', "aa"), ('B', "bb"), ('C', "cc"), ('D', "dd")],
    correctAnswers := ['B', 'C'], rawBlock := "", metaTimestamp := "" }

def qCB : Question :=
  { id := "003", title := "Pregunta 3", content := "contenido cba",
    options := [('B', "bb"), ('C', "cc")], correctAnswers := ['C', 'B'],
    rawBlock := "", metaTimestamp := "" }

def rand0 : Nat → Nat := fun _ => 0

def eAB : QuizEngine :=
  { selectedQuestions := [qAB], currentIndex := 0, userAnswers := [none],
    startTime := none, endTime := none, isCompleted := false }

def eABCD : QuizEngine :=
  { selectedQuestions := [qABCD], currentIndex := 0, userAnswers := [none],
    startTime := none, endTime := none, isCompleted := false }

/-! ## Shared lemmas about sorting -/

lemma sortChars_perm (l : List Char) : (sortChars l).Perm l :=
  List.perm_insertionSort _ l

lemma sortChars_sorted (l : List Char) : List.Sorted (· ≤ ·) (sortChars l) :=
  List.sorted_insertionSort _ l

lemma sortChars_eq_iff {a b : List Char} : sortChars a = sortChars b ↔ a.Perm b := by
  constructor
  · intro h
    have h1 := sortChars_perm a
    rw [h] at h1
    exact h1.symm.trans (sortChars_perm b)
  · intro h
    exact List.eq_of_perm_of_sorted
      ((sortChars_perm a).trans (h.trans (sortChars_perm b).symm))
      (sortChars_sorted a) (sortChars_sorted b)

lemma sortChars_idem (l : List Char) : sortChars (sortChars l) = sortChars l :=
  sortChars_eq_iff.mpr (sortChars_perm l)

/-! ## Claim C1 -/

/-- C1, counterexample. The claim states that with correctAnswers B,C the
call submitAnswer("B") returns isCorrect = false; on a session built by the
engine constructor over such a question, submitAnswer("B") in fact succeeds
with isCorrect = true, because single-letter answers are checked by
membership rather than by set equality. -/
theorem c1_counterexample :
    (mkEngine [qABCD] 1 rand0).map
      (fun e => ((submitAnswer e ['B'] 0).2).map (fun o => o.isCorrect)) =
      .ok (.ok true) ∧ qABCD.correctAnswers = ['B', 'C'] := by
  constructor
  · rfl
  · rfl

/-- C1, amended. Correctness of a submitted answer is decided by exact
multiset equality with correctAnswers only when the answer has at least
two letters (so submitAnswer("CB") is correct and submitAnswer("BCD") is
incorrect for correctAnswers B,C); a single-letter answer is correct
exactly when the letter is a member of correctAnswers, which grants
partial credit on multi-answer questions. -/
theorem c1_amended (q : Question) (ans : List Char) :
    (1 < ans.length → (isAnswerCorrect q ans = true ↔ ans.Perm q.correctAnswers)) ∧
    (∀ c : Char, isAnswerCorrect q [c] = true ↔ c ∈ q.correctAnswers) := by
  constructor
  · intro h
    unfold isAnswerCorrect
    rw [if_pos h]
    simp [sortChars_eq_iff]
  · intro c
    unfold isAnswerCorrect
    simp

/-- C1, witness for the amended theorem at a concrete multi-letter input. -/
theorem c1_witness :
    1 < (['C', 'B'] : List Char).length ∧
      (isAnswerCorrect qABCD ['C', 'B'] = true ↔ (['C', 'B'] : List Char).Perm qABCD.correctAnswers) :=
  ⟨by decide, (c1_amended qABCD ['C', 'B']).1 (by decide)⟩

/-! ## Claim C2 -/

lemma selectLoop_length (rand : Nat → Nat) :
    ∀ (k i : Nat) (avail : List Question),
      (selectLoop rand k i avail).length = min k avail.length := by
  intro k
  induction k with
  | zero => intro i avail; simp [selectLoop]
  | succ k ih =>
      intro i avail
      unfold selectLoop
      by_cases h : avail.isEmpty
      · rw [if_pos h]
        rw [List.isEmpty_iff] at h
        simp [h]
      · rw [if_neg h]
        have hlen : 0 < avail.length := by
          cases avail with
          | nil => simp at h
          | cons a l => simp
        have hidx : rand i % avail.length < avail.length := Nat.mod_lt _ hlen
        rw [List.get?_eq_get hidx]
        simp only [List.length_cons, ih]
        rw [List.length_eraseIdx_of_lt hidx]
        omega

/-- C2, counterexample. The claim states the drawn subset size is clamped
into the range from 1 to the pool size; a session constructed over a
two-question pool with requested count 0 succeeds with an empty selection,
so there is no lower clamp to 1. -/
theorem c2_counterexample :
    (mkEngine [qAB, qABCD] 0 rand0).map (fun e => e.selectedQuestions.length) =
      .ok 0 := by rfl

/-- C2, amended. For a pool of structurally valid records, construction
fails with EmptyPool exactly when the pool is empty; otherwise it succeeds
and the drawn subset size is the requested count clamped from above by the
pool size and from below by 0 (there is no lower clamp to 1: a requested
count of at most 0 yields an empty selection). -/
theorem c2_amended (qs : List Question) (requested : Int) (rand : Nat → Nat)
    (hvalid : ∀ q ∈ qs, validateQuestionStructure q = true) :
    (mkEngine qs requested rand = .error .emptyPool ↔ qs = []) ∧
    (∀ e, mkEngine qs requested rand = .ok e →
      e.selectedQuestions.length = (min requested (qs.length : Int)).toNat ∧
      e.userAnswers.length = e.selectedQuestions.length ∧
      e.currentIndex = 0 ∧ e.startTime = none ∧ e.isCompleted = false) := by
  have hfilter : qs.filter validateQuestionStructure = qs :=
    List.filter_eq_self.mpr hvalid
  by_cases hq : qs = []
  · constructor
    · simp [mkEngine, hq]
    · intro e he
      rw [mkEngine] at he
      simp [hq] at he
  · constructor
    · simp only [mkEngine]
      rw [if_neg hq, hfilter, if_neg hq]
      simp [hq]
    · intro e he
      rw [mkEngine] at he
      rw [if_neg hq, hfilter, if_neg hq] at he
      simp only [Except.ok.injEq] at he
      subst he
      refine ⟨?_, ?_, rfl, rfl, rfl⟩
      · simp only [selectRandomQuestions, selectLoop_length]
        have hle : min requested (qs.length : Int) ≤ (qs.length : Int) :=
          min_le_right _ _
        have : (min requested (qs.length : Int)).toNat ≤ qs.length := by omega
        omega
      · simp [List.length_replicate]

/-- C2, witness for the amended theorem on a concrete valid pool. -/
theorem c2_witness :
    (∀ q ∈ [qAB, qABCD], validateQuestionStructure q = true) ∧
    ((mkEngine [qAB, qABCD] 5 rand0 = .error .emptyPool ↔ ([qAB, qABCD] : List Question) = []) ∧
     (∀ e, mkEngine [qAB, qABCD] 5 rand0 = .ok e →
       e.selectedQuestions.length = (min 5 (([qAB, qABCD] : List Question).length : Int)).toNat ∧
       e.userAnswers.length = e.selectedQuestions.length ∧
       e.currentIndex = 0 ∧ e.startTime = none ∧ e.isCompleted = false)) :=
  ⟨by decide, c2_amended [qAB, qABCD] 5 rand0 (by decide)⟩

/-! ## Claims C3 and C7: parse loop characterization -/

lemma length_filter_add_not {α : Type} (p : α → Bool) (l : List α) :
    (l.filter p).length + (l.filter (fun a => !p a)).length = l.length := by
  induction l with
  | nil => simp
  | cons a l ih =>
      by_cases h : p a
      · simp [List.filter_cons, h]; omega
      · simp [List.filter_cons, h]; omega

lemma foldl_processBlock (now : String) :
    ∀ (blocks : List (List Char)) (qs0 : List Question) (r0 : ParseReport),
      blocks.foldl (processBlock now) (qs0, r0) =
        (qs0 ++ acceptedOf now blocks,
         ⟨r0.processed + (blocks.filter (fun b => blockAccepted now b)).length,
          r0.skipped + (blocks.filter (fun b => !blockAccepted now b)).length⟩)
  | [], qs0, r0 => by simp [acceptedOf]
  | b :: bs, qs0, r0 => by
      have ih := foldl_processBlock now bs
      simp only [List.foldl_cons]
      cases hx : extractQuestion b now with
      | none =>
          have hacc : blockAccepted now b = false := by simp [blockAccepted, hx]
          simp only [processBlock, hx]
          rw [ih]
          simp [acceptedOf, List.filterMap_cons, hx, List.filter_cons, hacc]
          omega
      | some q =>
          by_cases hv : validateQuestion q = true
          · have hacc : blockAccepted now b = true := by simp [blockAccepted, hx, hv]
            simp only [processBlock, hx, hv, if_pos]
            rw [ih]
            simp [acceptedOf, List.filterMap_cons, hx, hv, List.filter_cons, hacc]
            omega
          · have hacc : blockAccepted now b = false := by simp [blockAccepted, hx, hv]
            simp only [processBlock, hx, hv, if_neg]
            rw [ih]
            simp [acceptedOf, List.filterMap_cons, hx, hv, List.filter_cons, hacc]
            omega

/-- C3, amended. The whole-document precondition checked before per-block
processing is only that the trimmed content is nonempty and that at least
one question-heading pattern occurs: exactly in that case parse fails
up front (DocumentFormatError) with no blocks processed; the presence of a
control marker or of an option line is not checked up front, and whenever
the precondition holds every detected block is processed (accepted or
skipped). -/
theorem c3_amended (content : String) (now : String) :
    ((parseQuestionsFull content now).1.processed + (parseQuestionsFull content now).1.skipped =
      if validateMarkdownContent content then (splitQuestionBlocks content).length else 0) ∧
    (parseQuestionsFull content now = (⟨0, 0⟩, .error .invalidContent) ↔
      validateMarkdownContent content = false) := by
  by_cases hv : validateMarkdownContent content = true
  · have hne : ¬ (validateMarkdownContent content = false) := by simp [hv]
    have hfold := foldl_processBlock now (splitQuestionBlocks content) [] ⟨0, 0⟩
    constructor
    · simp only [parseQuestionsFull, if_neg hne]
      rw [hfold]
      by_cases hacc : (([] : List Question) ++ acceptedOf now (splitQuestionBlocks content)).isEmpty = true
      · rw [if_pos hacc]
        simp [hv, length_filter_add_not]
      · rw [if_neg hacc]
        simp [hv, length_filter_add_not]
    · simp only [parseQuestionsFull, if_neg hne]
      rw [hfold]
      constructor
      · intro h
        by_cases hacc : (([] : List Question) ++ acceptedOf now (splitQuestionBlocks content)).isEmpty = true
        · rw [if_pos hacc] at h
          exact absurd (congrArg (fun p => p.2) h) (by simp)
        · rw [if_neg hacc] at h
          exact absurd (congrArg (fun p => p.2) h) (by simp)
      · intro h
        rw [h] at hv
        simp at hv
  · have hv' : validateMarkdownContent content = false := by
      cases hmk : validateMarkdownContent content
      · rfl
      · exact absurd hmk hv
    constructor
    · simp [parseQuestionsFull, hv', hv]
    · simp [parseQuestionsFull, hv']

/-- Document with a heading but no control marker and no option line. -/
def docC3 : String := "## Pregunta 1\n\nTexto de prueba\n"

/-- C3, counterexample. The claim states that a document lacking a control
marker or an option line fails up front with DocumentFormatError and no
blocks are processed; on this document, which passes the precondition while
containing neither a marker nor any option line, the block is processed
(skipped count 1) and the parse fails only afterwards with the
no-valid-questions error, not the whole-document format error. -/
theorem c3_counterexample :
    parseQuestionsFull docC3 "t" = (⟨0, 1⟩, .error .noValidQuestions) ∧
    containsLit asButtonLit docC3.data = false ∧
    (optionMatches docC3.data).isEmpty = true ∧
    validateMarkdownContent docC3 = true := by
  refine ⟨?_, ?_, ?_, ?_⟩ <;> rfl

/-! ## Claim C7 -/

/-- C7, amended. Under the whole-document precondition every detected block
is processed independently: a block failing extraction or validation only
increments the skipped count of the report and processing continues, no
error is raised for it; when at least one block is accepted parse returns
the accepted questions in document order, but when every detected block is
rejected parse throws the no-valid-questions error instead of returning an
empty pool. -/
theorem c7_amended (content : String) (now : String)
    (h : validateMarkdownContent content = true) :
    (parseQuestionsFull content now).1.processed =
      ((splitQuestionBlocks content).filter (fun b => blockAccepted now b)).length ∧
    (parseQuestionsFull content now).1.skipped =
      ((splitQuestionBlocks content).filter (fun b => !blockAccepted now b)).length ∧
    (acceptedOf now (splitQuestionBlocks content) ≠ [] →
      (parseQuestionsFull content now).2 = .ok (acceptedOf now (splitQuestionBlocks content))) ∧
    (acceptedOf now (splitQuestionBlocks content) = [] →
      (parseQuestionsFull content now).2 = .error .noValidQuestions) := by
  have hne : ¬ (validateMarkdownContent content = false) := by simp [h]
  have hfold := foldl_processBlock now (splitQuestionBlocks content) [] ⟨0, 0⟩
  simp only [parseQuestionsFull, if_neg hne]
  rw [hfold]
  by_cases hacc : acceptedOf now (splitQuestionBlocks content) = []
  · simp [hacc]
  · have hje : (([] : List Question) ++ acceptedOf now (splitQuestionBlocks content)).isEmpty = false := by
      simp [hacc]
    simp [hje, hacc]

/-- Document with one block whose content is too short, so the block fails
validation and is rejected. -/
def docC7 : String :=
  "## Pregunta 2\n\nCorto\n\nA. x\nB. y\n\n<as-button message=\"A\"></as-button>\n"

/-- Document with one valid block followed by one block rejected for short
content. -/
def docC7W : String :=
  "## Pregunta 1\n\nEste es el enunciado de la pregunta.\n\nA. Primera opcion\nB. Segunda opcion\n\n<as-button message=\"A\"></as-button>\n\n## Pregunta 2\n\nCorto\n\nA. x\nB. y\n\n<as-button message=\"B\"></as-button>\n"

/-- C7, counterexample. The claim states parse returns normally with the
accepted pool and the report even when every detected block is rejected;
on this document the single detected block is rejected and parse throws
the no-valid-questions error instead of returning. -/
theorem c7_counterexample :
    parseQuestionsFull docC7 "t" = (⟨0, 1⟩, .error .noValidQuestions) ∧
    (splitQuestionBlocks docC7).length = 1 := by
  refine ⟨?_, ?_⟩ <;> rfl

/-- C7, witness for the amended theorem on a document with one accepted and
one rejected block. -/
theorem c7_witness :
    validateMarkdownContent docC7W = true ∧
    (parseQuestionsFull docC7W "t").1.processed =
      ((splitQuestionBlocks docC7W).filter (fun b => blockAccepted "t" b)).length :=
  ⟨by rfl, (c7_amended docC7W "t" (by rfl)).1⟩

/-! ## Claim C4 -/

lemma lookupOpt_eq_find (m : List (Char × String)) (k : Char) :
    lookupOpt m k = (m.find? (fun p => p.1 = k)).map Prod.snd := by
  unfold lookupOpt
  cases h : m.find? (fun p => p.1 = k) <;> simp [h]

lemma lookupOpt_cons (p : Char × String) (m : List (Char × String)) (k : Char) :
    lookupOpt (p :: m) k = if p.1 = k then some p.2 else lookupOpt m k := by
  by_cases h : p.1 = k
  · simp [lookupOpt, List.find?, h]
  · simp [lookupOpt, List.find?, h]

lemma lookup_append_single (m : List (Char × String)) (k0 : Char) (v0 : String) (k : Char) :
    lookupOpt (m ++ [(k0, v0)]) k =
      (lookupOpt m k).or (if k = k0 then some v0 else none) := by
  rw [lookupOpt_eq_find, lookupOpt_eq_find, List.find?_append]
  cases h : m.find? (fun p => p.1 = k) with
  | some p => simp [Option.or]
  | none =>
      by_cases hk : k = k0
      · simp [Option.or, List.find?, hk]
      · have hkk : decide (k0 = k) = false := by
          simp only [decide_eq_false_iff_not]
          intro hx
          exact hk hx.symm
        simp [Option.or, List.find?, hkk, hk]

lemma lookup_none_of_not_any (m : List (Char × String)) (k0 : Char)
    (hmem : m.any (fun p => p.1 = k0) = false) : lookupOpt m k0 = none := by
  rw [lookupOpt_eq_find]
  have h : m.find? (fun p => p.1 = k0) = none := by
    rw [List.find?_eq_none]
    intro x hx
    rw [List.any_eq_false] at hmem
    exact hmem x hx
  simp [h]

lemma lookup_mapUpdate_ne (m : List (Char × String)) (k0 : Char) (v0 : String) (k : Char)
    (hk : k ≠ k0) :
    lookupOpt (m.map (fun p => if p.1 = k0 then (k0, v0) else p)) k = lookupOpt m k := by
  induction m with
  | nil => rfl
  | cons p ps ih =>
      by_cases hp : p.1 = k0
      · simp only [List.map_cons, if_pos hp]
        rw [lookupOpt_cons, lookupOpt_cons]
        have h1 : ¬ ((k0, v0).1 = k) := fun h => hk h.symm
        rw [if_neg h1, if_neg (by rw [hp]; exact h1), ih]
      · simp only [List.map_cons, if_neg hp]
        rw [lookupOpt_cons, lookupOpt_cons]
        by_cases h2 : p.1 = k
        · rw [if_pos h2, if_pos h2]
        · rw [if_neg h2, if_neg h2, ih]

lemma lookup_mapUpdate_eq (m : List (Char × String)) (k0 : Char) (v0 : String)
    (hmem : m.any (fun p => p.1 = k0) = true) :
    lookupOpt (m.map (fun p => if p.1 = k0 then (k0, v0) else p)) k0 = some v0 := by
  induction m with
  | nil => simp at hmem
  | cons p ps ih =>
      by_cases hp : p.1 = k0
      · simp only [List.map_cons, if_pos hp]
        rw [lookupOpt_cons]
        simp
      · simp only [List.map_cons, if_neg hp]
        rw [lookupOpt_cons, if_neg hp]
        apply ih
        simp only [List.any_cons] at hmem
        simpa [hp] using hmem

lemma lookupOpt_assign (m : List (Char × String)) (k0 : Char) (v0 : String) (k : Char) :
    lookupOpt (jsObjAssign m k0 v0) k = if k = k0 then some v0 else lookupOpt m k := by
  unfold jsObjAssign
  by_cases hmem : m.any (fun p => p.1 = k0) = true
  · rw [if_pos hmem]
    by_cases hk : k = k0
    · rw [if_pos hk, hk]
      exact lookup_mapUpdate_eq m k0 v0 hmem
    · rw [if_neg hk]
      exact lookup_mapUpdate_ne m k0 v0 k hk
  · rw [if_neg hmem]
    rw [lookup_append_single]
    have hmem' : m.any (fun p => p.1 = k0) = false := by
      cases h : m.any (fun p => p.1 = k0)
      · rfl
      · exact absurd h hmem
    by_cases hk : k = k0
    · rw [if_pos hk, if_pos hk, hk]
      rw [lookup_none_of_not_any m k0 hmem']
      rfl
    · rw [if_neg hk, if_neg hk, Option.or_none]

lemma keys_assign (m : List (Char × String)) (k0 : Char) (v0 : String) :
    (jsObjAssign m k0 v0).map Prod.fst =
      if m.any (fun p => p.1 = k0) = true then m.map Prod.fst
      else m.map Prod.fst ++ [k0] := by
  unfold jsObjAssign
  by_cases hmem : m.any (fun p => p.1 = k0) = true
  · rw [if_pos hmem, if_pos hmem, List.map_map]
    apply List.map_congr_left
    intro p _
    by_cases hp : p.1 = k0
    · simp [hp]
    · simp [hp]
  · rw [if_neg hmem, if_neg hmem, List.map_append]
    rfl

lemma mem_keys_iff_any (m : List (Char × String)) (k : Char) :
    k ∈ m.map Prod.fst ↔ m.any (fun p => p.1 = k) = true := by
  rw [List.any_eq_true, List.mem_map]
  constructor
  · rintro ⟨p, hp, hpk⟩
    exact ⟨p, hp, by simp [hpk]⟩
  · rintro ⟨p, hp, hpk⟩
    exact ⟨p, hp, by simpa using hpk⟩

lemma firstDedupAux_congr (l : List Char) :
    ∀ (s1 s2 : List Char), (∀ c, c ∈ s1 ↔ c ∈ s2) →
      firstDedupAux s1 l = firstDedupAux s2 l := by
  induction l with
  | nil => intro s1 s2 h; rfl
  | cons k ks ih =>
      intro s1 s2 h
      unfold firstDedupAux
      by_cases hk : k ∈ s1
      · rw [if_pos hk, if_pos ((h k).mp hk)]
        exact ih s1 s2 h
      · rw [if_neg hk, if_neg (fun hc => hk ((h k).mpr hc))]
        rw [ih (k :: s1) (k :: s2) (by intro c; simp [h c])]

lemma firstDedupAux_cons (seen : List Char) (k : Char) (ks : List Char) :
    firstDedupAux seen (k :: ks) =
      if k ∈ seen then firstDedupAux seen ks else k :: firstDedupAux (k :: seen) ks := rfl

lemma foldAssign_keys (ms : List (Char × String)) :
    ∀ (acc : List (Char × String)),
      ((ms.foldl (fun m p => jsObjAssign m p.1 p.2) acc).map Prod.fst) =
        acc.map Prod.fst ++ firstDedupAux (acc.map Prod.fst) (ms.map Prod.fst) := by
  induction ms with
  | nil => intro acc; simp [firstDedupAux]
  | cons p ps ih =>
      intro acc
      simp only [List.foldl_cons, List.map_cons]
      rw [ih (jsObjAssign acc p.1 p.2)]
      rw [keys_assign]
      rw [firstDedupAux_cons]
      by_cases hmem : acc.any (fun x => x.1 = p.1) = true
      · rw [if_pos hmem]
        rw [if_pos ((mem_keys_iff_any acc p.1).mpr hmem)]
      · rw [if_neg hmem]
        have hnm : ¬ p.1 ∈ acc.map Prod.fst := by
          rw [mem_keys_iff_any]
          exact hmem
        rw [if_neg hnm]
        rw [firstDedupAux_congr (ps.map Prod.fst) (acc.map Prod.fst ++ [p.1])
          (p.1 :: acc.map Prod.fst) (by intro c; simp; tauto)]
        simp

lemma foldAssign_lookup (ms : List (Char × String)) :
    ∀ (acc : List (Char × String)) (k : Char),
      lookupOpt (ms.foldl (fun m p => jsObjAssign m p.1 p.2) acc) k =
        (((ms.reverse).find? (fun p => p.1 = k)).map Prod.snd).or (lookupOpt acc k) := by
  induction ms with
  | nil => intro acc k; simp
  | cons p ps ih =>
      intro acc k
      simp only [List.foldl_cons, List.reverse_cons]
      rw [ih (jsObjAssign acc p.1 p.2) k]
      rw [lookupOpt_assign, List.find?_append]
      cases hf : (ps.reverse).find? (fun x => x.1 = k) with
      | some x => simp [Option.or]
      | none =>
          by_cases hk : k = p.1
          · have : decide (p.1 = k) = true := by simp [hk]
            simp [Option.or, List.find?, this, hk]
          · have : decide (p.1 = k) = false := by
              simp only [decide_eq_false_iff_not]
              intro hx
              exact hk hx.symm
            simp [Option.or, List.find?, this, hk]

/-- C4, amended. For every question block, the extracted options object
binds each letter to the text of the LAST option-shaped line carrying that
letter (later occurrences overwrite earlier ones), while the order of the
letters in the object is the order of their first appearance among the
matches. -/
theorem c4_amended (block : List Char) :
    ((extractAnswers block).map Prod.fst = firstDedup ((optionMatches block).map Prod.fst)) ∧
    (∀ k : Char, lookupOpt (extractAnswers block) k =
      (((optionMatches block).reverse).find? (fun p => p.1 = k)).map Prod.snd) := by
  constructor
  · unfold extractAnswers firstDedup
    rw [foldAssign_keys]
    rfl
  · intro k
    unfold extractAnswers
    rw [foldAssign_lookup]
    have : lookupOpt [] k = none := rfl
    rw [this, Option.or_none]

/-- C4, counterexample. The claim states the first occurrence of a letter
wins; on a block where letter A occurs on two option lines the extracted
text for A is that of the second line, not the first. -/
theorem c4_counterexample :
    extractAnswers ("A. first\nA. second\nB. third".data) =
      [('A', "second"), ('B', "third")] ∧
    lookupOpt (extractAnswers ("A. first\nA. second\nB. third".data)) 'A' ≠ some "first" := by
  refine ⟨rfl, ?_⟩
  decide

/-! ## Claim C8 -/

lemma extractQuestion_timestamp (block : List Char) (n1 n2 : String) :
    extractQuestion block n1 =
      (extractQuestion block n2).map (fun q => { q with metaTimestamp := n1 }) := by
  unfold extractQuestion
  cases findNumberFrom block with
  | none => rfl
  | some ds =>
      by_cases h1 : (extractQuestionContent block).isEmpty = true
      · simp [h1]
      · simp only [h1]
        by_cases h2 : (extractAnswers block).isEmpty = true
        · simp [h2]
        · simp only [h2]
          by_cases h3 : (extractCorrectAnswer block).isEmpty = true
          · simp [h3]
          · simp [h3]

lemma validateQuestion_timestamp (q : Question) (n : String) :
    validateQuestion { q with metaTimestamp := n } = validateQuestion q := by
  simp [validateQuestion]

lemma blockAccepted_timestamp (n1 n2 : String) (b : List Char) :
    blockAccepted n1 b = blockAccepted n2 b := by
  unfold blockAccepted
  rw [extractQuestion_timestamp b n1 n2]
  cases extractQuestion b n2 with
  | none => rfl
  | some q => simp [validateQuestion_timestamp]

lemma coreOf_timestamp (q : Question) (n : String) :
    coreOf { q with metaTimestamp := n } = coreOf q := rfl

lemma acceptedOf_cons (now : String) (b : List Char) (bs : List (List Char)) :
    acceptedOf now (b :: bs) =
      match extractQuestion b now with
      | some q => if validateQuestion q then q :: acceptedOf now bs else acceptedOf now bs
      | none => acceptedOf now bs := by
  unfold acceptedOf
  rw [List.filterMap_cons]
  cases extractQuestion b now with
  | none => rfl
  | some q =>
      by_cases hv : validateQuestion q <;> simp [hv]

lemma acceptedOf_timestamp (n1 n2 : String) (blocks : List (List Char)) :
    (acceptedOf n1 blocks).map coreOf = (acceptedOf n2 blocks).map coreOf := by
  induction blocks with
  | nil => rfl
  | cons b bs ih =>
      have e1 : extractQuestion b n1 =
          (extractQuestion b n2).map (fun q => { q with metaTimestamp := n1 }) :=
        extractQuestion_timestamp b n1 n2
      rw [acceptedOf_cons, acceptedOf_cons]
      cases hx : extractQuestion b n2 with
      | none =>
          have hx1 : extractQuestion b n1 = none := by rw [e1, hx]; rfl
          rw [hx1]
          exact ih
      | some q =>
          have hx1 : extractQuestion b n1 = some { q with metaTimestamp := n1 } := by
            rw [e1, hx]; rfl
          rw [hx1]
          by_cases hv : validateQuestion q = true
          · have hv1 : validateQuestion { q with metaTimestamp := n1 } = true := by
              rw [validateQuestion_timestamp]; exact hv
            simp only [hv, hv1, if_pos, List.map_cons, coreOf_timestamp]
            rw [ih]
          · have hv1 : validateQuestion { q with metaTimestamp := n1 } = false := by
              rw [validateQuestion_timestamp]
              cases hc : validateQuestion q
              · rfl
              · exact absurd hc hv
            simp only [hv1, hv, Bool.false_eq_true, if_neg]
            exact ih

lemma acceptedOf_timestamp_nil (n1 n2 : String) (blocks : List (List Char)) :
    (acceptedOf n1 blocks = [] ↔ acceptedOf n2 blocks = []) := by
  have h := acceptedOf_timestamp n1 n2 blocks
  constructor
  · intro hx
    rw [hx] at h
    cases hy : acceptedOf n2 blocks
    · rfl
    · rw [hy] at h
      simp at h
  · intro hx
    rw [hx] at h
    cases hy : acceptedOf n1 blocks
    · rfl
    · rw [hy] at h
      simp at h

/-- C8, amended. Extraction and validation are deterministic up to the
wall-clock timestamp stored in the extraction metadata: two parses of the
same input produce identical reports and pools whose records agree on
every field except extractionMetadata.timestamp, which records the instant
of the run. -/
theorem c8_amended (content : String) (n1 n2 : String) :
    (parseQuestionsFull content n1).1 = (parseQuestionsFull content n2).1 ∧
    Option.map (List.map coreOf) (okQuestions (parseQuestionsFull content n1).2) =
      Option.map (List.map coreOf) (okQuestions (parseQuestionsFull content n2).2) := by
  by_cases hv : validateMarkdownContent content = true
  · have hne : ¬ (validateMarkdownContent content = false) := by simp [hv]
    have hf1 := foldl_processBlock n1 (splitQuestionBlocks content) [] ⟨0, 0⟩
    have hf2 := foldl_processBlock n2 (splitQuestionBlocks content) [] ⟨0, 0⟩
    have hfil : (fun b => blockAccepted n1 b) = (fun b => blockAccepted n2 b) :=
      funext (fun b => blockAccepted_timestamp n1 n2 b)
    have hfil2 : (fun b => !blockAccepted n1 b) = (fun b => !blockAccepted n2 b) := by
      funext b
      rw [blockAccepted_timestamp n1 n2 b]
    simp only [parseQuestionsFull, if_neg hne]
    rw [hf1, hf2, hfil, hfil2]
    by_cases hacc : acceptedOf n1 (splitQuestionBlocks content) = []
    · have hacc2 : acceptedOf n2 (splitQuestionBlocks content) = [] :=
        (acceptedOf_timestamp_nil n1 n2 _).mp hacc
      simp [hacc, hacc2, okQuestions]
    · have hacc2 : ¬ acceptedOf n2 (splitQuestionBlocks content) = [] := by
        intro hc
        exact hacc ((acceptedOf_timestamp_nil n1 n2 _).mpr hc)
      simp only [List.nil_append, List.isEmpty_eq_true, hacc, hacc2, if_neg]
      refine ⟨rfl, ?_⟩
      have hts := acceptedOf_timestamp n1 n2 (splitQuestionBlocks content)
      simp [okQuestions, hts]
  · have hv' : validateMarkdownContent content = false := by
      cases hmk : validateMarkdownContent content
      · rfl
      · exact absurd hmk hv
    simp [parseQuestionsFull, hv', okQuestions]

/-- Document with one valid question block. -/
def docC8 : String :=
  "## Pregunta 1\n\nEste es el enunciado de la pregunta.\n\nA. Primera opcion\nB. Segunda opcion\n\n<as-button message=\"A\"></as-button>\n"

/-- C8, counterexample. The claim states repeated runs on identical input
produce field-identical question records; two runs at different wall-clock
instants produce pools that differ in the stored extraction timestamp
field, hence are not field-identical. -/
theorem c8_counterexample :
    Option.map (List.map Question.metaTimestamp) (okQuestions (parseQuestionsFull docC8 "t1").2) =
      some ["t1"] ∧
    Option.map (List.map Question.metaTimestamp) (okQuestions (parseQuestionsFull docC8 "t2").2) =
      some ["t2"] ∧
    okQuestions (parseQuestionsFull docC8 "t1").2 ≠ okQuestions (parseQuestionsFull docC8 "t2").2 := by
  refine ⟨rfl, rfl, ?_⟩
  decide

/-! ## Claim C5 -/

/-- C5, amended. The start timestamp is stamped by the first submitAnswer
call that passes the completed-state and index checks, whether or not the
call then succeeds: a call failing format or option validation still sets
startedAt. Apart from that, a failing call changes nothing: its state is
the old state or the old state with only startTime stamped, and the stored
answers are only modified by a successful call. -/
theorem c5_amended (e : QuizEngine) (ans : List Char) (now : Nat) :
    ((submitAnswer e ans now).1.userAnswers = e.userAnswers ∨
      isOkE (submitAnswer e ans now).2 = true) ∧
    (e.isCompleted = false → e.selectedQuestions ≠ [] →
      e.currentIndex < e.selectedQuestions.length → e.startTime = none →
      (submitAnswer e ans now).1.startTime = some now) ∧
    (∀ err, (submitAnswer e ans now).2 = .error err →
      (submitAnswer e ans now).1 = e ∨
      (submitAnswer e ans now).1 = { e with startTime := some now }) := by
  unfold submitAnswer
  by_cases h1 : e.selectedQuestions = []
  · simp [h1]
  · rw [if_neg h1]
    by_cases h2 : e.isCompleted = true
    · simp [h2]
    · rw [if_neg h2]
      by_cases h3 : e.selectedQuestions.length ≤ e.currentIndex
      · rw [dif_pos h3]
        refine ⟨Or.inl rfl, ?_, fun err _ => Or.inl rfl⟩
        intro _ _ hlt _
        omega
      · rw [dif_neg h3]
        by_cases hst : e.startTime = none
        · simp only [hst, if_pos]
          by_cases h4 : validateAnswerFormat ans = false
          · simp [h4]
          · rw [if_neg h4]
            by_cases h5 : validateAnswerForQuestion ans
                (e.selectedQuestions.get ⟨e.currentIndex, Nat.lt_of_not_le h3⟩) = false
            · simp only [List.get_eq_getElem] at h5
              simp [h5]
            · simp only [List.get_eq_getElem] at h5
              simp [h5, isOkE]
        · have hst' : (if e.startTime = none then some now else e.startTime) = e.startTime :=
            if_neg hst
          simp only [hst']
          by_cases h4 : validateAnswerFormat ans = false
          · simp [h4, h2]
            constructor
            · intro _ _ hx
              exact absurd hx hst
            · left
              cases e
              simp_all
          · rw [if_neg h4]
            by_cases h5 : validateAnswerForQuestion ans
                (e.selectedQuestions.get ⟨e.currentIndex, Nat.lt_of_not_le h3⟩) = false
            · simp only [List.get_eq_getElem] at h5
              simp [h5, h2, hst]
              cases e
              simp_all
            · simp only [List.get_eq_getElem] at h5
              simp [h5, isOkE, h2, hst]

/-- C5, counterexample. The claim states a failing submitAnswer leaves the
session unchanged with startedAt still null; on a fresh session built by
the constructor, a submitAnswer call that fails with MalformedAnswer sets
the start timestamp. -/
theorem c5_counterexample :
    mkEngine [qAB] 1 rand0 = .ok eAB ∧
    eAB.startTime = none ∧
    (submitAnswer eAB ['a'] 7).2 = .error .malformedAnswer ∧
    (submitAnswer eAB ['a'] 7).1.startTime = some 7 := by
  refine ⟨rfl, rfl, rfl, rfl⟩

/-- C5, witness for the amended theorem on a fresh session and a malformed
answer. -/
theorem c5_witness :
    (submitAnswer eAB ['a'] 7).1.startTime = some 7 :=
  (c5_amended eAB ['a'] 7).2.1 rfl (by decide) (by decide) rfl

lemma submitAnswer_selected_shape (e : QuizEngine) (ans : List Char) (now : Nat) :
    (submitAnswer e ans now).1.selectedQuestions = e.selectedQuestions ∨
    (∃ qi, e.selectedQuestions.get? e.currentIndex = some qi ∧
      (submitAnswer e ans now).1.selectedQuestions =
        e.selectedQuestions.set e.currentIndex (isAnswerCorrectMut qi ans).2) := by
  unfold submitAnswer
  by_cases h1 : e.selectedQuestions = []
  · simp [h1]
  · rw [if_neg h1]
    by_cases h2 : e.isCompleted = true
    · simp [h2]
    · rw [if_neg h2]
      by_cases h3 : e.selectedQuestions.length ≤ e.currentIndex
      · rw [dif_pos h3]
        exact Or.inl rfl
      · rw [dif_neg h3]
        by_cases h4 : validateAnswerFormat ans = false
        · simp [h4]
        · rw [if_neg h4]
          by_cases h5 : validateAnswerForQuestion ans
              (e.selectedQuestions.get ⟨e.currentIndex, Nat.lt_of_not_le h3⟩) = false
          · simp only [List.get_eq_getElem] at h5
            simp [h5]
          · simp only [List.get_eq_getElem] at h5
            simp only [h5, Bool.false_eq_true, if_neg, ite_eq_right_iff]
            right
            refine ⟨e.selectedQuestions.get ⟨e.currentIndex, Nat.lt_of_not_le h3⟩,
              List.get?_eq_get (Nat.lt_of_not_le h3), ?_⟩
            simp [h5]

/-! ## Claim C6 -/

/-- C6, amended. A submitAnswer call never changes the id, title, content,
options or raw block of any question in the selected list, and preserves
the correct answer letters as a multiset; however the order of the stored
correctAnswers array of the current question may change, because the
correctness check sorts that array in place. -/
theorem c6_amended (e : QuizEngine) (ans : List Char) (now : Nat) (j : Nat) (q q2 : Question)
    (hj : e.selectedQuestions.get? j = some q)
    (hj2 : (submitAnswer e ans now).1.selectedQuestions.get? j = some q2) :
    q2.id = q.id ∧ q2.title = q.title ∧ q2.content = q.content ∧
    q2.options = q.options ∧ q2.rawBlock = q.rawBlock ∧
    q2.correctAnswers.Perm q.correctAnswers := by
  rcases submitAnswer_selected_shape e ans now with heq | ⟨qi, hqi, heq⟩
  · rw [heq, hj] at hj2
    have : q = q2 := by injection hj2
    subst this
    exact ⟨rfl, rfl, rfl, rfl, rfl, List.Perm.refl _⟩
  · rw [heq] at hj2
    by_cases hij : e.currentIndex = j
    · subst hij
      have hlt : e.currentIndex < e.selectedQuestions.length := by
        rcases List.get?_eq_some.mp hqi with ⟨h, _⟩
        exact h
      rw [List.get?_set_eq_of_lt _ hlt] at hj2
      have hq2 : (isAnswerCorrectMut qi ans).2 = q2 := by injection hj2
      have hqq : qi = q := by
        rw [hqi] at hj
        injection hj
      subst hqq
      subst hq2
      unfold isAnswerCorrectMut
      by_cases hm : 1 < ans.length
      · rw [if_pos hm]
        exact ⟨rfl, rfl, rfl, rfl, rfl, sortChars_perm _⟩
      · rw [if_neg hm]
        exact ⟨rfl, rfl, rfl, rfl, rfl, List.Perm.refl _⟩
    · rw [List.get?_set_ne _ _ hij] at hj2
      rw [hj] at hj2
      have : q = q2 := by injection hj2
      subst this
      exact ⟨rfl, rfl, rfl, rfl, rfl, List.Perm.refl _⟩

lemma submitAnswer_result (e : QuizEngine) (ans : List Char) (now : Nat)
    (h1 : e.selectedQuestions ≠ []) (h2 : e.currentIndex < e.selectedQuestions.length) :
    (submitAnswer e ans now).2 =
      if e.isCompleted then .error .invalidState
      else if validateAnswerFormat ans = false then .error .malformedAnswer
      else if validateAnswerForQuestion ans (e.selectedQuestions.get ⟨e.currentIndex, h2⟩) = false then
        .error .unknownOption
      else
        .ok { questionIndex := e.currentIndex, answer := ans,
              isCorrect :=
                (isAnswerCorrectMut (e.selectedQuestions.get ⟨e.currentIndex, h2⟩) ans).1,
              questionId := (e.selectedQuestions.get ⟨e.currentIndex, h2⟩).id } := by
  unfold submitAnswer
  by_cases hc : e.isCompleted = true
  · rw [if_neg h1, if_pos hc, if_pos hc]
  · rw [if_neg h1, if_neg hc, dif_neg (Nat.not_le.mpr h2), if_neg hc]
    by_cases h4 : validateAnswerFormat ans = false
    · rw [if_pos h4, if_pos h4]
    · rw [if_neg h4, if_neg h4]
      by_cases h5 : validateAnswerForQuestion ans
          (e.selectedQuestions.get ⟨e.currentIndex, Nat.lt_of_not_le (Nat.not_le.mpr h2)⟩) = false
      · simp only [List.get_eq_getElem] at h5
        simp [h5]
      · simp only [List.get_eq_getElem] at h5
        simp [h5]

lemma lookup_some_mem (m : List (Char × String)) (c : Char) (t : String)
    (h : lookupOpt m c = some t) : ∃ p ∈ m, p.2 = t := by
  unfold lookupOpt at h
  cases hf : m.find? (fun p => p.1 = c) with
  | none => rw [hf] at h; exact absurd h (by simp)
  | some p =>
      rw [hf] at h
      have hp : p ∈ m := List.mem_of_find?_eq_some hf
      have ht : p.2 = t := by injection h
      exact ⟨p, hp, ht⟩

lemma optionTruthy_iff_lookup (m : List (Char × String)) (c : Char)
    (hopts : ∀ p ∈ m, p.2 ≠ "") :
    optionTruthy m c = true ↔ lookupOpt m c ≠ none := by
  unfold optionTruthy
  cases h : lookupOpt m c with
  | none => simp
  | some t =>
      simp only [ne_eq]
      constructor
      · intro _ hc
        exact absurd hc (by simp)
      · intro _
        obtain ⟨p, hp, hpt⟩ := lookup_some_mem m c t h
        simpa using hpt ▸ hopts p hp

/-! ## Claim C9 -/

/-- C9, confirmed. For a session whose selected list is nonempty, whose
index is in range and whose current question has nonempty option texts (as
the record invariant guarantees): submitAnswer fails with InvalidState
when the quiz is completed; otherwise it fails with MalformedAnswer when
the answer is empty, longer than 10 characters or contains a character
outside the range A-Z; otherwise it fails with UnknownOption when some
submitted letter is not a key of the options of the current question; and
otherwise it succeeds. -/
theorem c9 (e : QuizEngine) (ans : List Char) (now : Nat) (q : Question)
    (h1 : e.selectedQuestions ≠ []) (h2 : e.currentIndex < e.selectedQuestions.length)
    (hq : e.selectedQuestions.get? e.currentIndex = some q)
    (hopts : ∀ p ∈ q.options, p.2 ≠ "") :
    (e.isCompleted = true → (submitAnswer e ans now).2 = .error .invalidState) ∧
    (e.isCompleted = false → (ans = [] ∨ 10 < ans.length ∨ ans.all isUpperAlpha = false) →
      (submitAnswer e ans now).2 = .error .malformedAnswer) ∧
    (e.isCompleted = false → ans ≠ [] → ans.length ≤ 10 → ans.all isUpperAlpha = true →
      (∃ c ∈ ans, lookupOpt q.options c = none) →
      (submitAnswer e ans now).2 = .error .unknownOption) ∧
    (e.isCompleted = false → ans ≠ [] → ans.length ≤ 10 → ans.all isUpperAlpha = true →
      (∀ c ∈ ans, lookupOpt q.options c ≠ none) →
      ∃ o, (submitAnswer e ans now).2 = .ok o) := by
  have hres := submitAnswer_result e ans now h1 h2
  have hget : e.selectedQuestions.get ⟨e.currentIndex, h2⟩ = q := by
    rw [List.get?_eq_get h2] at hq
    injection hq
  rw [hget] at hres
  refine ⟨?_, ?_, ?_, ?_⟩
  · intro hc
    rw [hres, if_pos hc]
  · intro hc hbad
    have hfmt : validateAnswerFormat ans = false := by
      unfold validateAnswerFormat
      rcases hbad with h | h | h
      · simp [h]
      · simp only [Bool.and_eq_false_iff]
        left
        right
        simp
        omega
      · simp [h]
    rw [hres, if_neg (by simp [hc]), if_pos hfmt]
  · intro hc hne hlen hupper ⟨c, hcm, hcl⟩
    have hfmt : ¬ (validateAnswerFormat ans = false) := by
      unfold validateAnswerFormat
      simp [hne, hlen, hupper]
    have hval : validateAnswerForQuestion ans q = false := by
      unfold validateAnswerForQuestion
      rw [List.all_eq_false]
      refine ⟨c, hcm, ?_⟩
      intro ht
      exact absurd hcl (by
        have := (optionTruthy_iff_lookup q.options c hopts).mp ht
        exact this)
    rw [hres, if_neg (by simp [hc]), if_neg hfmt, if_pos hval]
  · intro hc hne hlen hupper hall
    have hfmt : ¬ (validateAnswerFormat ans = false) := by
      unfold validateAnswerFormat
      simp [hne, hlen, hupper]
    have hval : validateAnswerForQuestion ans q = true := by
      unfold validateAnswerForQuestion
      rw [List.all_eq_true]
      intro c hcm
      exact (optionTruthy_iff_lookup q.options c hopts).mpr (hall c hcm)
    rw [hres, if_neg (by simp [hc]), if_neg hfmt, if_neg (by simp [hval])]
    exact ⟨_, rfl⟩

/-- C9, witness on a concrete in-range session and a valid answer. -/
theorem c9_witness :
    eABCD.selectedQuestions ≠ [] ∧
    (∀ p ∈ qABCD.options, p.2 ≠ "") ∧
    (∃ o, (submitAnswer eABCD ['B', 'C'] 3).2 = .ok o) := by
  refine ⟨by decide, by decide, ?_⟩
  exact (c9 eABCD ['B', 'C'] 3 qABCD (by decide) (by decide) rfl
    (by decide)).2.2.2 rfl (by decide) (by decide) (by decide) (by decide)

lemma submitAnswer_ok_eq (e : QuizEngine) (ans : List Char) (now : Nat) (q : Question)
    (h1 : e.selectedQuestions ≠ []) (h2 : e.currentIndex < e.selectedQuestions.length)
    (hc : e.isCompleted = false)
    (hq : e.selectedQuestions.get? e.currentIndex = some q)
    (hfmt : validateAnswerFormat ans = true)
    (hval : validateAnswerForQuestion ans q = true) :
    submitAnswer e ans now =
      ({ e with
          startTime := if e.startTime = none then some now else e.startTime,
          userAnswers := e.userAnswers.set e.currentIndex (some ans),
          selectedQuestions :=
            e.selectedQuestions.set e.currentIndex (isAnswerCorrectMut q ans).2 },
       .ok { questionIndex := e.currentIndex, answer := ans,
             isCorrect := (isAnswerCorrectMut q ans).1, questionId := q.id }) := by
  have hget : e.selectedQuestions.get ⟨e.currentIndex, h2⟩ = q := by
    rw [List.get?_eq_get h2] at hq
    injection hq
  unfold submitAnswer
  rw [if_neg h1, if_neg (by simp [hc]), dif_neg (Nat.not_le.mpr h2),
    if_neg (by simp [hfmt])]
  simp only [List.get_eq_getElem] at hget
  simp only [List.get_eq_getElem, hget]
  rw [if_neg (by simp [hval])]

lemma isAnswerCorrect_sortCorrect (q : Question) (a : List Char) :
    isAnswerCorrect { q with correctAnswers := sortChars q.correctAnswers } a =
      isAnswerCorrect q a := by
  unfold isAnswerCorrect
  by_cases hm : 1 < a.length
  · rw [if_pos hm, if_pos hm]
    simp only [sortChars_idem]
  · rw [if_neg hm, if_neg hm]
    match a with
    | [] => rfl
    | [c] =>
        simp only [decide_eq_decide]
        exact (sortChars_perm _).mem_iff
    | c :: d :: rest => rfl

lemma isAnswerCorrectMut_options (q : Question) (a : List Char) :
    ((isAnswerCorrectMut q a).2).options = q.options := by
  unfold isAnswerCorrectMut
  by_cases hm : 1 < a.length <;> simp [hm]

lemma validateAnswerForQuestion_mut (a1 a2 : List Char) (q : Question) :
    validateAnswerForQuestion a2 (isAnswerCorrectMut q a1).2 =
      validateAnswerForQuestion a2 q := by
  unfold validateAnswerForQuestion
  rw [isAnswerCorrectMut_options]

lemma isAnswerCorrect_mut2 (q : Question) (a1 a2 : List Char) (a : List Char) :
    isAnswerCorrect (isAnswerCorrectMut (isAnswerCorrectMut q a1).2 a2).2 a =
      isAnswerCorrect (isAnswerCorrectMut q a2).2 a := by
  unfold isAnswerCorrectMut
  by_cases hm1 : 1 < a1.length <;> by_cases hm2 : 1 < a2.length <;> simp [hm1, hm2]
  · simp only [sortChars_idem]
  · exact isAnswerCorrect_sortCorrect q a

lemma countCorrect_congr :
    ∀ (sel : List Question) (ua : List (Option (List Char))) (i : Nat) (q1 q2 : Question),
      (∀ a, isAnswerCorrect q1 a = isAnswerCorrect q2 a) →
      countCorrect (sel.set i q1) ua = countCorrect (sel.set i q2) ua := by
  intro sel
  induction sel with
  | nil => intro ua i q1 q2 _; rfl
  | cons s ss ih =>
      intro ua i q1 q2 hiff
      cases i with
      | zero =>
          cases ua with
          | nil => rfl
          | cons oa as =>
              simp only [List.set_cons_zero]
              cases oa with
              | none => rfl
              | some a =>
                  show (if (!a.isEmpty && isAnswerCorrect q1 a) = true then 1 else 0) +
                      countCorrect ss as =
                    (if (!a.isEmpty && isAnswerCorrect q2 a) = true then 1 else 0) +
                      countCorrect ss as
                  rw [hiff a]
      | succ j =>
          cases ua with
          | nil =>
              show countCorrect (ss.set j q1) [] = countCorrect (ss.set j q2) []
              exact ih [] j q1 q2 hiff
          | cons oa as =>
              simp only [List.set_cons_succ]
              show (match oa with
                    | some a => if (!a.isEmpty && isAnswerCorrect s a) = true then 1 else 0
                    | none => 0) + countCorrect (ss.set j q1) as =
                  (match oa with
                    | some a => if (!a.isEmpty && isAnswerCorrect s a) = true then 1 else 0
                    | none => 0) + countCorrect (ss.set j q2) as
              rw [ih as j q1 q2 hiff]

/-! ## Claim C10 -/

/-- C10, confirmed. On an in-progress session, submitting twice at the same
index succeeds both times; the second successful submission overwrites the
stored answer of the first, and scoring is computed from the final stored
answers only: the score after submitting a1 then a2 equals the score after
submitting a2 alone. -/
theorem c10 (e : QuizEngine) (q : Question) (a1 a2 : List Char) (n1 n2 : Nat)
    (hc : e.isCompleted = false)
    (hq : e.selectedQuestions.get? e.currentIndex = some q)
    (hf1 : validateAnswerFormat a1 = true) (ho1 : validateAnswerForQuestion a1 q = true)
    (hf2 : validateAnswerFormat a2 = true) (ho2 : validateAnswerForQuestion a2 q = true) :
    isOkE (submitAnswer e a1 n1).2 = true ∧
    isOkE (submitAnswer (submitAnswer e a1 n1).1 a2 n2).2 = true ∧
    (submitAnswer (submitAnswer e a1 n1).1 a2 n2).1.userAnswers =
      e.userAnswers.set e.currentIndex (some a2) ∧
    calculateScore (submitAnswer (submitAnswer e a1 n1).1 a2 n2).1 =
      calculateScore (submitAnswer e a2 n2).1 := by
  obtain ⟨h2, -⟩ := List.get?_eq_some.mp hq
  have h1 : e.selectedQuestions ≠ [] := by
    intro hnil
    rw [hnil] at h2
    simp at h2
  have heq1 := submitAnswer_ok_eq e a1 n1 q h1 h2 hc hq hf1 ho1
  have heq3 := submitAnswer_ok_eq e a2 n2 q h1 h2 hc hq hf2 ho2
  rw [heq1, heq3]
  set q1 : Question := (isAnswerCorrectMut q a1).2 with hq1def
  set E1 : QuizEngine :=
    { e with
        startTime := if e.startTime = none then some n1 else e.startTime,
        userAnswers := e.userAnswers.set e.currentIndex (some a1),
        selectedQuestions := e.selectedQuestions.set e.currentIndex q1 } with hE1
  have hE1sel : E1.selectedQuestions = e.selectedQuestions.set e.currentIndex q1 := rfl
  have hE1idx : E1.currentIndex = e.currentIndex := rfl
  have hE1ua : E1.userAnswers = e.userAnswers.set e.currentIndex (some a1) := rfl
  have h2' : E1.currentIndex < E1.selectedQuestions.length := by
    rw [hE1idx, hE1sel, List.length_set]
    exact h2
  have h1' : E1.selectedQuestions ≠ [] := by
    rw [hE1sel]
    intro hnil
    have := congrArg List.length hnil
    rw [List.length_set] at this
    simp at this
    rw [this] at h2
    simp at h2
  have hq' : E1.selectedQuestions.get? E1.currentIndex = some q1 := by
    rw [hE1sel, hE1idx]
    exact List.get?_set_eq_of_lt _ h2
  have hc' : E1.isCompleted = false := hc
  have ho2' : validateAnswerForQuestion a2 q1 = true := by
    rw [hq1def, validateAnswerForQuestion_mut]
    exact ho2
  have heq2 := submitAnswer_ok_eq E1 a2 n2 q1 h1' h2' hc' hq' hf2 ho2'
  rw [heq2]
  refine ⟨rfl, rfl, ?_, ?_⟩
  · show (E1.userAnswers.set E1.currentIndex (some a2)) =
      e.userAnswers.set e.currentIndex (some a2)
    rw [hE1ua, hE1idx, List.set_set]
  · show calculateScore
        { E1 with
            startTime := if E1.startTime = none then some n2 else E1.startTime,
            userAnswers := E1.userAnswers.set E1.currentIndex (some a2),
            selectedQuestions :=
              E1.selectedQuestions.set E1.currentIndex (isAnswerCorrectMut q1 a2).2 } =
      calculateScore
        { e with
            startTime := if e.startTime = none then some n2 else e.startTime,
            userAnswers := e.userAnswers.set e.currentIndex (some a2),
            selectedQuestions :=
              e.selectedQuestions.set e.currentIndex (isAnswerCorrectMut q a2).2 }
    unfold calculateScore
    have hsel2 : E1.selectedQuestions.set E1.currentIndex (isAnswerCorrectMut q1 a2).2 =
        e.selectedQuestions.set e.currentIndex (isAnswerCorrectMut q1 a2).2 := by
      rw [hE1sel, hE1idx, List.set_set]
    have hua2 : E1.userAnswers.set E1.currentIndex (some a2) =
        e.userAnswers.set e.currentIndex (some a2) := by
      rw [hE1ua, hE1idx, List.set_set]
    simp only [hsel2, hua2]
    have hcc : countCorrect (e.selectedQuestions.set e.currentIndex (isAnswerCorrectMut q1 a2).2)
        (e.userAnswers.set e.currentIndex (some a2)) =
        countCorrect (e.selectedQuestions.set e.currentIndex (isAnswerCorrectMut q a2).2)
          (e.userAnswers.set e.currentIndex (some a2)) := by
      apply countCorrect_congr
      intro a
      rw [hq1def]
      exact isAnswerCorrect_mut2 q a1 a2 a
    simp only [hcc, List.length_set]

/-- Session over qCB and the reordered question produced by the in-place
sort. -/
def eCB : QuizEngine :=
  { selectedQuestions := [qCB], currentIndex := 0, userAnswers := [none],
    startTime := none, endTime := none, isCompleted := false }

def qCBsorted : Question := { qCB with correctAnswers := ['B', 'C'] }

/-- C6, counterexample. The claim states no session operation modifies any
field of a pool record, including the order of its correctAnswers array;
submitting the multi-letter answer BC on a session over a question whose
correctAnswers array is stored as C,B leaves the stored array reordered to
B,C. -/
theorem c6_counterexample :
    qCB.correctAnswers = ['C', 'B'] ∧
    (mkEngine [qCB] 1 rand0).map
      (fun e => ((submitAnswer e ['B', 'C'] 0).1.selectedQuestions).map
        (fun q => q.correctAnswers)) = .ok [['B', 'C']] := by
  refine ⟨rfl, rfl⟩

/-- C6, witness for the amended theorem at the concrete reordering input. -/
theorem c6_witness :
    eCB.selectedQuestions.get? 0 = some qCB ∧
    (submitAnswer eCB ['B', 'C'] 0).1.selectedQuestions.get? 0 = some qCBsorted ∧
    qCBsorted.options = qCB.options ∧
    qCBsorted.correctAnswers.Perm qCB.correctAnswers := by
  refine ⟨rfl, rfl, ?_, ?_⟩
  · exact (c6_amended eCB ['B', 'C'] 0 0 qCB qCBsorted rfl rfl).2.2.2.1
  · exact (c6_amended eCB ['B', 'C'] 0 0 qCB qCBsorted rfl rfl).2.2.2.2.2

/-- C10, witness on a concrete session with two successive answers at the
same index. -/
theorem c10_witness :
    eABCD.isCompleted = false ∧
    eABCD.selectedQuestions.get? eABCD.currentIndex = some qABCD ∧
    (submitAnswer (submitAnswer eABCD ['A'] 1).1 ['B'] 2).1.userAnswers =
      eABCD.userAnswers.set eABCD.currentIndex (some ['B']) :=
  ⟨rfl, rfl,
    (c10 eABCD qABCD ['A'] ['B'] 1 2 rfl rfl (by decide) (by decide) (by decide)
      (by decide)).2.2.1⟩
